import Mathlib

/-!
Verification development for the HarpsichordTuning repository
(src/Tuning/FFTonLiveAudio.py, src/Tuning/multiProcess_opt.py,
src/Tuning/parameters.py).

Floating point numbers of the Python source are embedded as real numbers;
the integer audio samples as integers; tuning-table cent values as rationals.
External library calls (numpy, scipy) are embedded by their documented
mathematical meaning at the call site.
-/

namespace Tuning

/-- Sampling rate, FFTonLiveAudio.py line 61 and parameters.py line 3. -/
def RATE : ℕ := 44100

namespace parameters

/-- Window for Gauss fits, number of channels on either side;
parameters.py line 39 (5 * FACTOR with FACTOR = 1). -/
def FIT_WINDOW : ℤ := 5

/-- Number of harmonic orders considered in harmonic finding;
parameters.py line 48. -/
def NPARTIAL : ℕ := 11

end parameters

/-- A tuning temperament table: (key name, value in cents) pairs, in Python
dict declaration order.  The file tuningTable.py the program imports is not
under src/; per the spec a table is a mapping from key names to reference
offsets in cents whose mandatory pivot is the key "A". -/
abbrev Table := List (String × ℚ)

/-- Embedding of the lookup tuningtable[self.tuning].get("A") performed in
Tuner.find, FFTonLiveAudio.py line 349.  Python dict.get returns None when
the key is missing. -/
def getA : Table → Option ℚ
  | [] => none
  | (k, v) :: rest => if k = "A" then some v else getA rest

/-- The acceptance band -60 < displaced < 60 of Tuner.find, line 350. -/
def inBand (d : ℝ) : Prop := -60 < d ∧ d < 60

open Classical in
/-- Boolean form of the acceptance band, for first-match searches. -/
noncomputable def inBandB (d : ℝ) : Bool := decide (inBand d)

open Classical in
/-- Inner loop of Tuner.find (lines 348-356): iterate the (key, value) pairs
of the selected table in declaration order; displaced = offset + table-A
- value; return the first key inside the band.  When the table has no key
"A", Python evaluates offset + None - value and raises a TypeError, which is
embedded as the .error branch. -/
noncomputable def findInner (offset : ℝ) (table : Table) :
    List (String × ℚ) → Except String (Option (String × ℝ))
  | [] => .ok none
  | (key, value) :: rest =>
    match getA table with
    | none => .error "TypeError: unsupported operand types float and NoneType"
    | some vA =>
      let displaced : ℝ := offset + (vA : ℝ) - (value : ℝ)
      if inBand displaced then .ok (some (key, displaced))
      else findInner offset table rest

open Classical in
/-- Outer loop of Tuner.find (lines 346-358): for each octave shift i the
offset is log2(f/a1)*1200 - i*1200 (precomputed here as cents - 1200*i); the
first inner hit is returned as the pair (key, displaced); falling through
every shift returns the fully absent pair (None, None). -/
noncomputable def findOuter (cents : ℝ) (table : Table) :
    List ℤ → Except String (Option String × Option ℝ)
  | [] => .ok (none, none)
  | i :: rest =>
    match findInner (cents - 1200 * (i : ℝ)) table table with
    | .error e => .error e
    | .ok (some (key, displaced)) => .ok (some key, some displaced)
    | .ok none => findOuter cents table rest

/-- The octave shifts range(-3, 6) iterated by Tuner.find, line 346. -/
def octaves : List ℤ := [-3, -2, -1, 0, 1, 2, 3, 4, 5]

/-- Embedding of Tuner.find (FFTonLiveAudio.py lines 333-358).  The measured
cents position np.log2(f_measured/a1) * 1200 is computed once from the real
inputs; the loops then compare real numbers exactly as the source does. -/
noncomputable def find (f_measured a1 : ℝ) (table : Table) :
    Except String (Option String × Option ℝ) :=
  findOuter (Real.logb 2 (f_measured / a1) * 1200) table octaves

/-- The candidate order claimed by the spec for TuningMatcher: all octave
shifts, and for each shift all table entries in declaration order. -/
def candidates (table : Table) : List ℤ → List (ℤ × String × ℚ)
  | [] => []
  | i :: rest => table.map (fun p => (i, p)) ++ candidates table rest

/-- Definition following the words of the spec (section 4.5 TuningMatcher):
compute displaced = 1200*log2(f/a1) - 1200*i + table-A - value over the
candidate order and return the first key inside the band together with that
displaced value, otherwise a fully absent result.  Used only to compare
against the source-shaped definition of find. -/
noncomputable def findSpec (f_measured a1 : ℝ) (vA : ℚ) (table : Table) :
    Option String × Option ℝ :=
  match (candidates table octaves).find? (fun c =>
      inBandB (1200 * Real.logb 2 (f_measured / a1) - 1200 * (c.1 : ℝ)
        + (vA : ℝ) - (c.2.2 : ℝ))) with
  | some c => (some c.2.1,
      some (1200 * Real.logb 2 (f_measured / a1) - 1200 * (c.1 : ℝ)
        + (vA : ℝ) - (c.2.2 : ℝ)))
  | none => (none, none)

/-- The series built by Tuner.harmonics, lines 379-381: for n in range(1, 9)
append best_x[0] * n * sqrt(1 + best_x[1] * n**2). -/
noncomputable def harmonics_f_n (f1 B : ℝ) : List ℝ :=
  (List.range' 1 8).map fun (n : ℕ) =>
    f1 * (n : ℝ) * Real.sqrt (1 + B * (n : ℝ) ^ 2)

/-- Modelled from the spec: the FundamentalSearch driver imported by
FFTonLiveAudio.py as threaded_opt is not under src/ (the multiProcess_opt.py
under src/ is a later Gauss-refiner version without best_x).  Spec section
4.4: output is a single best FitResult, or none if the input peak list is
empty.  The numerical outcome on a nonempty list is abstracted as the
parameter best. -/
def fundamentalSearch (best : ℝ × ℝ) (peaks : List ℝ) : Option (ℝ × ℝ) :=
  if peaks.isEmpty then none else some best

/-- Embedding of Tuner.harmonics (lines 360-387): run the search, then read
best_x[0] and best_x[1] unconditionally.  When the search produced no result
(best_x is None), Python raises a TypeError at line 381, embedded as the
.error branch. -/
noncomputable def harmonics (best : ℝ × ℝ) (peaks : List ℝ) :
    Except String (List ℝ) :=
  match fundamentalSearch best peaks with
  | none => .error "TypeError: NoneType object is not subscriptable"
  | some (f1, B) => .ok (harmonics_f_n f1 B)

namespace ThreadedOpt

/-- Embedding of ThreadedOpt.fitting (multiProcess_opt.py lines 72-113) for
one peak at channel index x: if the symmetric fit window runs past either
end of the frequency axis the peak is discarded with a warning and nothing
is put on the queue (line 85-88).  Otherwise the external
scipy.optimize.curve_fit call runs; its outcome for this peak is abstracted
as solver: some popt on success, none when the fit raises RuntimeError
(lines 94-109, discarded with a warning). -/
def fitting (freq : List ℝ) (solver : Option (ℝ × ℝ × ℝ)) (x : ℕ) :
    Option (ℝ × ℝ × ℝ) :=
  if (x : ℤ) - parameters.FIT_WINDOW < 0 ∨
      (x : ℤ) + parameters.FIT_WINDOW > (freq.length : ℤ) - 1 then none
  else solver

/-- Embedding of the collection phase of ThreadedOpt.run (lines 39-70): one
worker per element of initial; every worker pushes at most one result onto
the queue; run drains the queue into peaks, keeping rc[0] and rc[1] of each
reported popt.  Worker-timeout termination is a real-time effect and is not
modelled; every finished worker is collected. -/
def runOpt (freq : List ℝ) (solver : ℕ → ℝ → Option (ℝ × ℝ × ℝ))
    (initial : List (ℕ × ℝ)) : List (ℝ × ℝ) :=
  initial.filterMap fun p =>
    (fitting freq (solver p.1 p.2) p.1).map fun g => (g.1, g.2.1)

end ThreadedOpt

/-- The mutable Tuner state touched by the hotkey handler. -/
structure TunerState where
  record_seconds : ℚ
  fmax : ℚ
  rc : Option String

/-- Initial state set in Tuner.init, FFTonLiveAudio.py lines 76-80. -/
def initState : TunerState := { record_seconds := 2, fmax := 2000, rc := none }

/-- Embedding of Tuner.on_press (lines 389-422).  Stream side effects are
ignored; 0.1 seconds is the rational 1/10. -/
def on_press (s : TunerState) (key : String) : TunerState :=
  if key = "x" then { s with rc := some "x" }
  else if key = "y" then { s with rc := some "y" }
  else if key = "k" then { s with record_seconds := s.record_seconds + 1/10 }
  else if key = "j" then
    { s with record_seconds :=
        if s.record_seconds - 1/10 < 0 then 0 else s.record_seconds - 1/10 }
  else if key = "n" then
    { s with fmax := if s.fmax - 100 < 500 then 500 else s.fmax - 100 }
  else if key = "m" then
    { s with fmax := if s.fmax + 100 > 10000 then 10000 else s.fmax + 100 }
  else s

/-- The Hanning apodization np.hanning(M) applied at line 309/311:
w(j) = 0.5 - 0.5 cos(2 pi j / (M - 1)). -/
noncomputable def hann (m j : ℕ) : ℝ :=
  1 / 2 - 1 / 2 * Real.cos (2 * Real.pi * (j : ℝ) / ((m : ℝ) - 1))

/-- Sample value of the audio buffer at channel j (0 past the end). -/
def xval (amp : List ℤ) (j : ℕ) : ℝ := ((amp.getD j 0 : ℤ) : ℝ)

/-- Coefficient k of np.fft.rfft(hanning * amp), line 311:
sum over j of x_j exp(-2 pi i j k / n). -/
noncomputable def yRaw (amp : List ℤ) (k : ℕ) : ℂ :=
  ∑ j ∈ Finset.range amp.length,
    ((hann amp.length j * xval amp j : ℝ) : ℂ) *
      Complex.exp (-(2 * (Real.pi : ℂ) * Complex.I * (j : ℂ) * (k : ℂ)) /
        (amp.length : ℂ))

/-- Magnitude spectrum y = np.abs(y_raw), line 313. -/
noncomputable def yMag (amp : List ℤ) (k : ℕ) : ℝ := Complex.abs (yRaw amp k)

/-- The Gaussian kernel signal.gaussian(M=31, std=SIGMA) with SIGMA = 2,
lines 317-318: w(k) = exp(-(k - 15)^2 / (2 * 2^2)). -/
noncomputable def gaussFilt (k : ℕ) : ℝ := Real.exp (-(((k : ℝ) - 15) ^ 2) / 8)

/-- The kernel extended by zero outside its support, for the convolution. -/
noncomputable def filtPad (j : ℤ) : ℝ :=
  if 0 ≤ j ∧ j ≤ 30 then gaussFilt j.toNat else 0

/-- Channel i of signal.convolve(y, filt, mode=same), lines 319-321: the
centered slice of the full convolution, out[i] = sum over k of
y[k] * filt[i + 15 - k], with the kernel zero-padded at the borders.  The
magnitude spectrum from rfft has n/2 + 1 channels. -/
noncomputable def smoothed (amp : List ℤ) (i : ℕ) : ℝ :=
  ∑ k ∈ Finset.range (amp.length / 2 + 1),
    yMag amp k * filtPad ((i : ℤ) + 15 - (k : ℤ))

/-- Magnitude response of the analog high-pass Butterworth filter built at
lines 303-304 and 322-325 (order F_ORDER = 4, cutoff F_FILT = 25) evaluated
at the frequency value w, as np.abs(h):
sqrt(w^8 / (w^8 + 25^8)). -/
noncomputable def butterMag (w : ℝ) : ℝ := Real.sqrt (w ^ 8 / (w ^ 8 + 25 ^ 8))

/-- Frequency axis t1 = np.fft.rfftfreq(samples, 1/RATE), line 312:
j * RATE / n for j = 0 .. n/2. -/
noncomputable def fftFreqs (n : ℕ) : List ℝ :=
  (List.range (n / 2 + 1)).map fun (j : ℕ) => (j : ℝ) * (RATE : ℝ) / (n : ℝ)

/-- Final intensities y_final = np.abs(h) * spectrum, line 325. -/
noncomputable def fftAmps (amp : List ℤ) : List ℝ :=
  (List.range (amp.length / 2 + 1)).map fun (i : ℕ) =>
    butterMag ((i : ℝ) * (RATE : ℝ) / (amp.length : ℝ)) * smoothed amp i

/-- Embedding of Tuner.fft (FFTonLiveAudio.py lines 288-331): returns the
pair (t1, y_final). -/
noncomputable def fft (amp : List ℤ) : List ℝ × List ℝ :=
  (fftFreqs amp.length, fftAmps amp)

/-- Modelled from the spec (section 4.2 PeakExtractor): the external
scipy.signal.find_peaks call at lines 268-271.  A channel qualifies as a
local maximum when a flat plateau around it strictly rises on the left and
strictly falls on the right, the midpoint of the plateau being reported.
The additional distance, prominence and width constraints of the call only
discard further candidates; no claim depends on them, so the model is a
superset of the scipy result (conclusive for emptiness and for the shape of
the selection that follows). -/
def isLocalMax (x : List ℝ) (i : ℕ) : Prop :=
  ∃ l r : ℕ, 0 < l ∧ l ≤ i ∧ i ≤ r ∧ r + 1 < x.length ∧
    (∀ j, l ≤ j → j ≤ r → x.getD j 0 = x.getD l 0) ∧
    x.getD (l - 1) 0 < x.getD l 0 ∧ x.getD (r + 1) 0 < x.getD l 0 ∧
    i = (l + r) / 2

open Classical in
/-- The candidate channels reported by find_peaks, in increasing order. -/
noncomputable def findPeaks (x : List ℝ) : List ℕ :=
  (List.range x.length).filter fun i => decide (isLocalMax x i)

/-- The local constant NMAX = 1 of Tuner.peak, line 260: max number of
highest peaks kept. -/
def NMAX : ℕ := 1

open Classical in
/-- Descending lexicographic order on (amplitude, channel) pairs used by
sorted(zip(spectrum[peaks], peaks), reverse=True) at line 275. -/
noncomputable def descLe (a b : ℝ × ℕ) : Bool :=
  decide (b.1 < a.1 ∨ (b.1 = a.1 ∧ b.2 ≤ a.2))

open Classical in
/-- Ascending lexicographic order on (channel, amplitude) pairs used by
sorted(zip(list2, list1)) at line 279. -/
noncomputable def ascLe (a b : ℕ × ℝ) : Bool :=
  decide (a.1 < b.1 ∨ (a.1 = b.1 ∧ a.2 ≤ b.2))

/-- zip(spectrum[peaks], peaks): the qualifying (amplitude, channel) pairs. -/
noncomputable def peakPairs (spectrum : List ℝ) : List (ℝ × ℕ) :=
  (findPeaks spectrum).map fun p => (spectrum.getD p 0, p)

/-- The pairs sorted by amplitude descending, line 275. -/
noncomputable def peakSortedDesc (spectrum : List ℝ) : List (ℝ × ℕ) :=
  (peakPairs spectrum).mergeSort descLe

/-- The NMAX pairs kept by del list1[NMAX:], del list2[NMAX:], lines 276-277. -/
noncomputable def peakKept (spectrum : List ℝ) : List (ℝ × ℕ) :=
  (peakSortedDesc spectrum).take NMAX

/-- The pairs discarded by the truncation, lines 276-277. -/
noncomputable def peakDropped (spectrum : List ℝ) : List (ℝ × ℕ) :=
  (peakSortedDesc spectrum).drop NMAX

/-- The kept pairs re-sorted by channel (frequency) ascending, line 279. -/
noncomputable def peakResorted (spectrum : List ℝ) : List (ℕ × ℝ) :=
  ((peakKept spectrum).map fun q => (q.2, q.1)).mergeSort ascLe

/-- Embedding of Tuner.peak (FFTonLiveAudio.py lines 248-286): returns
(list2, list1) = (channel positions ascending, their heights); both lists
stay empty when find_peaks reported nothing (lines 261-262, 274). -/
noncomputable def peak (spectrum : List ℝ) : List ℕ × List ℝ :=
  if findPeaks spectrum = [] then ([], [])
  else ((peakResorted spectrum).map Prod.fst,
        (peakResorted spectrum).map Prod.snd)

/-- An all-zero (silent) sample buffer of n samples. -/
def silentBuf (n : ℕ) : List ℤ := List.replicate n 0

/-- Embedding of the startup path of main (FFTonLiveAudio.py lines 425-439)
as far as the selected tuning table is concerned: main enumerates the table
names for the prompt, constructs the Tuner (which only stores the chosen
name and a1) and registers the hotkeys.  It performs no validation of
the selected table and in particular never looks up the key "A" before the
analysis loop starts. -/
def mainStartup (_table : Table) : Except String Unit := .ok ()

/-! Helper lemmas. -/

theorem onPress_inv_step (s : TunerState) (k : String)
    (h1 : 0 ≤ s.record_seconds) (h2 : 500 ≤ s.fmax) (h3 : s.fmax ≤ 10000) :
    0 ≤ (on_press s k).record_seconds ∧ 500 ≤ (on_press s k).fmax ∧
      (on_press s k).fmax ≤ 10000 := by
  unfold on_press
  split_ifs <;> refine ⟨?_, ?_, ?_⟩ <;> simp_all <;> linarith

theorem onPress_inv_fold (keys : List String) :
    ∀ s : TunerState, 0 ≤ s.record_seconds → 500 ≤ s.fmax → s.fmax ≤ 10000 →
      0 ≤ (keys.foldl on_press s).record_seconds ∧
      500 ≤ (keys.foldl on_press s).fmax ∧
      (keys.foldl on_press s).fmax ≤ 10000 := by
  induction keys with
  | nil => exact fun s h1 h2 h3 => ⟨h1, h2, h3⟩
  | cons k ks ih =>
    intro s h1 h2 h3
    simp only [List.foldl_cons]
    obtain ⟨g1, g2, g3⟩ := onPress_inv_step s k h1 h2 h3
    exact ih _ g1 g2 g3

theorem yMag_nonneg (amp : List ℤ) (k : ℕ) : 0 ≤ yMag amp k :=
  Complex.abs.nonneg _

theorem filtPad_nonneg (j : ℤ) : 0 ≤ filtPad j := by
  unfold filtPad
  split
  · exact le_of_lt (Real.exp_pos _)
  · exact le_refl 0

theorem smoothed_nonneg (amp : List ℤ) (i : ℕ) : 0 ≤ smoothed amp i :=
  Finset.sum_nonneg fun k _ => mul_nonneg (yMag_nonneg amp k) (filtPad_nonneg _)

theorem butterMag_nonneg (w : ℝ) : 0 ≤ butterMag w := Real.sqrt_nonneg _

theorem xval_silent (n j : ℕ) : xval (silentBuf n) j = 0 := by
  unfold xval silentBuf
  rw [List.getD_eq_getElem?_getD, List.getElem?_replicate]
  split <;> simp

theorem yRaw_silent (n k : ℕ) : yRaw (silentBuf n) k = 0 := by
  unfold yRaw
  refine Finset.sum_eq_zero fun j _ => ?_
  rw [xval_silent]
  simp

theorem yMag_silent (n k : ℕ) : yMag (silentBuf n) k = 0 := by
  unfold yMag
  rw [yRaw_silent]
  simp

theorem smoothed_silent (n i : ℕ) : smoothed (silentBuf n) i = 0 := by
  unfold smoothed
  refine Finset.sum_eq_zero fun k _ => ?_
  rw [yMag_silent, zero_mul]

theorem fftAmps_silent (n : ℕ) :
    fftAmps (silentBuf n) = List.replicate (n / 2 + 1) 0 := by
  have h1 : fftAmps (silentBuf n) =
      (List.range ((silentBuf n).length / 2 + 1)).map fun _ => (0 : ℝ) := by
    unfold fftAmps
    exact List.map_congr_left fun i _ => by rw [smoothed_silent, mul_zero]
  rw [h1, List.map_const', List.length_range]
  congr 1
  simp [silentBuf]

theorem getD_replicate_zero (m j : ℕ) :
    (List.replicate m (0 : ℝ)).getD j 0 = 0 := by
  rw [List.getD_eq_getElem?_getD, List.getElem?_replicate]
  split <;> rfl

theorem findPeaks_zero (m : ℕ) : findPeaks (List.replicate m (0 : ℝ)) = [] := by
  unfold findPeaks
  rw [List.filter_eq_nil_iff]
  intro i _
  simp only [decide_eq_true_eq]
  rintro ⟨l, r, -, -, -, -, -, h6, -, -⟩
  rw [getD_replicate_zero, getD_replicate_zero] at h6
  exact lt_irrefl 0 h6

theorem cents_of_rpow (a1 : ℝ) (ha1 : 0 < a1) (q : ℝ) :
    Real.logb 2 (a1 * (2 : ℝ) ^ (q / 1200) / a1) * 1200 = q := by
  rw [mul_div_cancel_left₀ _ (ne_of_gt ha1),
    Real.logb_rpow (by norm_num) (by norm_num),
    div_mul_cancel₀ _ (by norm_num : (1200 : ℝ) ≠ 0)]

theorem findInner_miss (offset : ℝ) (table : Table) (vA : ℚ)
    (hA : getA table = some vA) (entries : List (String × ℚ))
    (h : ∀ p ∈ entries, ¬inBand (offset + (vA : ℝ) - (p.2 : ℝ))) :
    findInner offset table entries = .ok none := by
  induction entries with
  | nil => rfl
  | cons p rest ih =>
    obtain ⟨k1, v1⟩ := p
    simp only [findInner, hA]
    rw [if_neg (h (k1, v1) (List.mem_cons_self _ _))]
    exact ih fun q hq => h q (List.mem_cons_of_mem _ hq)

theorem findInner_first (offset : ℝ) (table : Table) (vA : ℚ)
    (hA : getA table = some vA) (pre post : List (String × ℚ))
    (key : String) (value : ℚ)
    (hpre : ∀ p ∈ pre, ¬inBand (offset + (vA : ℝ) - (p.2 : ℝ)))
    (hhit : inBand (offset + (vA : ℝ) - (value : ℝ))) :
    findInner offset table (pre ++ (key, value) :: post) =
      .ok (some (key, offset + (vA : ℝ) - (value : ℝ))) := by
  induction pre with
  | nil =>
    simp only [List.nil_append, findInner, hA]
    rw [if_pos hhit]
  | cons q qre ih =>
    obtain ⟨k1, v1⟩ := q
    simp only [List.cons_append, findInner, hA]
    rw [if_neg (hpre (k1, v1) (List.mem_cons_self _ _))]
    exact ih fun p hp => hpre p (List.mem_cons_of_mem _ hp)

theorem findOuter_hit (cents : ℝ) (table : Table) (key : String) (d : ℝ)
    (i : ℤ) (is : List ℤ) (hmem : i ∈ is)
    (hmiss : ∀ i2 ∈ is, i2 ≠ i →
      findInner (cents - 1200 * (i2 : ℝ)) table table = .ok none)
    (hhit : findInner (cents - 1200 * (i : ℝ)) table table
      = .ok (some (key, d))) :
    findOuter cents table is = .ok (some key, some d) := by
  induction is with
  | nil => exact absurd hmem (List.not_mem_nil i)
  | cons j rest ih =>
    unfold findOuter
    by_cases hji : j = i
    · subst hji
      rw [hhit]
    · rw [hmiss j (List.mem_cons_self _ _) hji]
      exact ih ((List.mem_cons.mp hmem).resolve_left fun h => hji h.symm)
        fun i2 h2 => hmiss i2 (List.mem_cons_of_mem _ h2)

theorem findInner_spec (offset : ℝ) (table : Table) (vA : ℚ)
    (hA : getA table = some vA) (entries : List (String × ℚ)) :
    findInner offset table entries =
      .ok ((entries.find? fun p =>
          inBandB (offset + (vA : ℝ) - (p.2 : ℝ))).map
        fun p => (p.1, offset + (vA : ℝ) - (p.2 : ℝ))) := by
  induction entries with
  | nil => rfl
  | cons p rest ih =>
    obtain ⟨k1, v1⟩ := p
    simp only [findInner, hA, List.find?]
    by_cases hb : inBand (offset + (vA : ℝ) - (v1 : ℝ))
    · have hbb : inBandB (offset + (vA : ℝ) - (v1 : ℝ)) = true := by
        simp [inBandB, hb]
      rw [if_pos hb]
      simp [hbb]
    · have hbb : inBandB (offset + (vA : ℝ) - (v1 : ℝ)) = false := by
        simp [inBandB, hb]
      rw [if_neg hb, ih]
      simp [hbb]

theorem findOuter_spec (cents : ℝ) (table : Table) (vA : ℚ)
    (hA : getA table = some vA) (is : List ℤ) :
    findOuter cents table is =
      .ok (match (candidates table is).find? (fun c =>
          inBandB (cents - 1200 * (c.1 : ℝ) + (vA : ℝ) - (c.2.2 : ℝ))) with
        | some c => (some c.2.1,
            some (cents - 1200 * (c.1 : ℝ) + (vA : ℝ) - (c.2.2 : ℝ)))
        | none => (none, none)) := by
  induction is with
  | nil => rfl
  | cons i rest ih =>
    have hcomp : ((fun c : ℤ × String × ℚ =>
          inBandB (cents - 1200 * (c.1 : ℝ) + (vA : ℝ) - (c.2.2 : ℝ))) ∘
        (fun p : String × ℚ => ((i : ℤ), p))) =
        fun p : String × ℚ =>
          inBandB (cents - 1200 * (i : ℝ) + (vA : ℝ) - (p.2 : ℝ)) := by
      funext p
      rfl
    simp only [findOuter, candidates, List.find?_append, List.find?_map]
    rw [findInner_spec (cents - 1200 * (i : ℝ)) table vA hA table, hcomp]
    rcases hfd : table.find? (fun p =>
        inBandB (cents - 1200 * (i : ℝ) + (vA : ℝ) - (p.2 : ℝ))) with _ | p
    · rw [hfd]
      simp only [Option.map_none', Option.none_or]
      exact ih
    · rw [hfd]
      simp only [Option.map_some', Option.or_some]

theorem find_getA_none (k : String) (v : ℚ) (rest : List (String × ℚ))
    (hA : getA ((k, v) :: rest) = none) (f_measured a1 : ℝ) :
    find f_measured a1 ((k, v) :: rest) =
      .error "TypeError: unsupported operand types float and NoneType" := by
  unfold find octaves
  simp only [findOuter, findInner, hA]

theorem pairwise_of_len_le_one {α : Type} {R : α → α → Prop} {l : List α}
    (h : l.length ≤ 1) : l.Pairwise R := by
  match l with
  | [] => exact List.Pairwise.nil
  | [a] => simp
  | a :: b :: t => simp at h

theorem descLe_trans (a b c : ℝ × ℕ) (h1 : descLe a b) (h2 : descLe b c) :
    descLe a c := by
  simp only [descLe, decide_eq_true_eq] at h1 h2 ⊢
  rcases h1 with h | ⟨he, hle⟩
  · rcases h2 with h' | ⟨he', hle'⟩
    · exact Or.inl (lt_trans h' h)
    · exact Or.inl (he' ▸ h)
  · rcases h2 with h' | ⟨he', hle'⟩
    · exact Or.inl (he ▸ h')
    · exact Or.inr ⟨he'.trans he, hle'.trans hle⟩

theorem descLe_total (a b : ℝ × ℕ) : descLe a b || descLe b a := by
  simp only [descLe, Bool.or_eq_true, decide_eq_true_eq]
  rcases lt_trichotomy b.1 a.1 with h | h | h
  · exact Or.inl (Or.inl h)
  · rcases le_total b.2 a.2 with h2 | h2
    · exact Or.inl (Or.inr ⟨h, h2⟩)
    · exact Or.inr (Or.inr ⟨h.symm, h2⟩)
  · exact Or.inr (Or.inl h)

/-! Claim theorems. -/

/-- C9: for every nonempty input sample buffer, the Spectrum produced by
Tuner.fft is a fixed-length pair of lists (n/2 + 1 channels, derived from
the window size n and sample rate) whose frequencies are nonnegative and
strictly increasing and whose amplitudes are all nonnegative: the high-pass
magnitude response times the Gaussian-smoothed magnitude spectrum never goes
below zero. -/
theorem fft_spectrum_invariants (amp : List ℤ) (h : 0 < amp.length) :
    (fft amp).1.length = amp.length / 2 + 1 ∧
    (fft amp).2.length = amp.length / 2 + 1 ∧
    (fft amp).1.Pairwise (· < ·) ∧
    (∀ f ∈ (fft amp).1, 0 ≤ f) ∧
    (∀ a ∈ (fft amp).2, 0 ≤ a) := by
  refine ⟨by simp [fft, fftFreqs], by simp [fft, fftAmps], ?_, ?_, ?_⟩
  · show (fftFreqs amp.length).Pairwise (· < ·)
    unfold fftFreqs
    rw [List.pairwise_map]
    refine (List.pairwise_lt_range _).imp ?_
    intro a b hab
    have hn : (0 : ℝ) < (amp.length : ℝ) := by exact_mod_cast h
    have hR : (0 : ℝ) < (RATE : ℝ) := by norm_num [RATE]
    exact (div_lt_div_iff_of_pos_right hn).mpr
      (mul_lt_mul_of_pos_right (by exact_mod_cast hab) hR)
  · intro f hf
    obtain ⟨j, -, rfl⟩ := List.mem_map.mp hf
    positivity
  · intro a ha
    obtain ⟨i, -, rfl⟩ := List.mem_map.mp ha
    exact mul_nonneg (butterMag_nonneg _) (smoothed_nonneg _ _)

/-- C9 witness: the invariants instantiated at the one-sample buffer. -/
theorem fft_spectrum_invariants_witness :
    0 < [(1 : ℤ)].length ∧
    ((fft [1]).1.length = [(1 : ℤ)].length / 2 + 1 ∧
     (fft [1]).2.length = [(1 : ℤ)].length / 2 + 1 ∧
     (fft [1]).1.Pairwise (· < ·) ∧
     (∀ f ∈ (fft [1]).1, 0 ≤ f) ∧
     (∀ a ∈ (fft [1]).2, 0 ≤ a)) :=
  ⟨by decide, fft_spectrum_invariants [1] (by decide)⟩

/-- C4: evaluation of the analysis round on the failing input, an all-zero
buffer of 1024 samples.  The FFT stage yields the all-zero spectrum, the
peak stage correctly yields the empty peak list and Tuner.peak the fully
empty result — but the round then reaches Tuner.harmonics, whose search has
no result for an empty peak list, and line 381 (best_x subscripting) raises
a TypeError instead of producing an absent MatchResult: the code contradicts
the graceful-degradation design the claim states. -/
theorem silent_round_evaluation :
    fftAmps (silentBuf 1024) = List.replicate 513 0 ∧
    findPeaks (List.replicate 513 (0 : ℝ)) = [] ∧
    peak (List.replicate 513 (0 : ℝ)) = ([], []) ∧
    harmonics ((0 : ℝ), (0 : ℝ)) [] =
      Except.error "TypeError: NoneType object is not subscriptable" := by
  refine ⟨by rw [fftAmps_silent 1024, show (1024 : ℕ) / 2 + 1 = 513 from by
      norm_num], findPeaks_zero 513, ?_, ?_⟩
  · unfold peak
    rw [if_pos (findPeaks_zero 513)]
  · simp [harmonics, fundamentalSearch]

/-- C8 counterexample: for the table [("B", 0)], which lacks the mandatory
key "A", startup succeeds (main performs no validation) and the failure
surfaces only when Tuner.find first runs inside an analysis round, as a
TypeError from offset + None - value; the claim that the program fails
fatally at startup is false. -/
theorem missing_A_counterexample :
    mainStartup [("B", 0)] = .ok () ∧
    getA [("B", 0)] = none ∧
    find 440 440 [("B", 0)] =
      .error "TypeError: unsupported operand types float and NoneType" :=
  ⟨rfl, rfl, find_getA_none "B" 0 [] rfl 440 440⟩

/-- C8 amended: a nonempty selected TuningTable lacking the mandatory key
"A" passes startup unchecked; the program fails only inside Tuner.find
during an analysis round, with a TypeError when the "A" lookup returns
None. -/
theorem missing_A_amended (table : Table) (p : String × ℚ)
    (rest : List (String × ℚ)) (htab : table = p :: rest)
    (hA : getA table = none) (f_measured a1 : ℝ) :
    mainStartup table = .ok () ∧
    find f_measured a1 table =
      .error "TypeError: unsupported operand types float and NoneType" := by
  subst htab
  obtain ⟨k, v⟩ := p
  exact ⟨rfl, find_getA_none k v rest hA f_measured a1⟩

/-- C8 witness: the amended statement at the concrete table [("B", 0)]. -/
theorem missing_A_amended_witness :
    ([(("B" : String), (0 : ℚ))] = ("B", (0 : ℚ)) :: []) ∧
    getA [("B", 0)] = none ∧
    (mainStartup [("B", 0)] = .ok () ∧
      find 100 100 [("B", 0)] =
        .error "TypeError: unsupported operand types float and NoneType") :=
  ⟨rfl, rfl, missing_A_amended [("B", 0)] ("B", 0) [] rfl rfl 100 100⟩

/-- C2: for every measured fundamental, reference pitch and tuning table
containing the mandatory key "A", Tuner.find iterates octave shifts and, for
each shift, the table entries in declaration order, computing
displaced = 1200*log2(f/a1) - 1200*i + table-A - value, and returns the
first candidate inside the band -60 < displaced < 60 together with that
displaced value (the first-match search findSpec written from the spec
words); when no candidate is inside the band the result is the fully absent
pair — by the shape of findSpec the result is always fully present or fully
absent, never partial. -/
theorem find_first_match_spec (f_measured a1 : ℝ) (table : Table) (vA : ℚ)
    (hA : getA table = some vA) :
    find f_measured a1 table = .ok (findSpec f_measured a1 vA table) ∧
    (findSpec f_measured a1 vA table = (none, none) ∨
      ∃ k d, findSpec f_measured a1 vA table = (some k, some d)) := by
  constructor
  · unfold find findSpec
    rw [show Real.logb 2 (f_measured / a1) * 1200
        = 1200 * Real.logb 2 (f_measured / a1) from mul_comm _ _]
    exact findOuter_spec _ table vA hA octaves
  · rcases hfd : (candidates table octaves).find? (fun c =>
        inBandB (1200 * Real.logb 2 (f_measured / a1) - 1200 * (c.1 : ℝ)
          + (vA : ℝ) - (c.2.2 : ℝ))) with _ | c
    · left
      unfold findSpec
      rw [hfd]
    · right
      exact ⟨c.2.1, 1200 * Real.logb 2 (f_measured / a1) - 1200 * (c.1 : ℝ)
        + (vA : ℝ) - (c.2.2 : ℝ), by unfold findSpec; rw [hfd]⟩

/-- C2 witness: the refinement instantiated at the one-entry table
[("A", 0)] with f = a1 = 440. -/
theorem find_first_match_spec_witness :
    getA [("A", 0)] = some 0 ∧
    (find 440 440 [("A", 0)] = .ok (findSpec 440 440 0 [("A", 0)]) ∧
      (findSpec 440 440 0 [("A", 0)] = (none, none) ∨
        ∃ k d, findSpec 440 440 0 [("A", 0)] = (some k, some d))) :=
  ⟨rfl, find_first_match_spec 440 440 [("A", 0)] 0 rfl⟩

/-- C1 counterexample: the table [("A", 0), ("B", 30)] satisfies the spec
invariant for tuning tables (it contains the pivot key "A"), and the
fundamental for its entry ("B", 30) at octave shift i = 0 is
f = a1 * 2 ^ ((30 - 0 + 0) / 1200) with a1 = 440; but Tuner.find returns
the earlier key "A" with offset 30 cents, not the key "B" with offset
inside one cent, because the first key inside the 60-cent band wins. -/
theorem find_roundtrip_counterexample :
    find (440 * (2 : ℝ) ^ ((30 : ℝ) / 1200)) 440 [("A", 0), ("B", 30)] =
      .ok (some "A", some 30) ∧ ("A" : String) ≠ "B" := by
  refine ⟨?_, by decide⟩
  unfold find
  rw [cents_of_rpow 440 (by norm_num) 30]
  have hA : getA [("A", (0 : ℚ)), ("B", 30)] = some 0 := rfl
  apply findOuter_hit 30 _ "A" 30 0 octaves (by decide)
  · intro i2 h2 hne
    apply findInner_miss _ _ 0 hA
    intro p hp
    have hp2 : p = ("A", (0 : ℚ)) ∨ p = ("B", (30 : ℚ)) := by simpa using hp
    simp only [octaves] at h2
    fin_cases h2 <;>
      first
        | exact absurd rfl hne
        | (rcases hp2 with rfl | rfl <;>
            (simp only [inBand]; push_cast; norm_num))
  · have heq : (30 : ℝ) - 1200 * ((0 : ℤ) : ℝ) + ((0 : ℚ) : ℝ)
        - ((0 : ℚ) : ℝ) = 30 := by push_cast; ring
    have h0 := findInner_first (30 - 1200 * ((0 : ℤ) : ℝ))
      [("A", 0), ("B", 30)] 0 hA [] [("B", 30)] "A" 0
      (fun p hp => absurd hp (List.not_mem_nil p))
      (by rw [heq]; exact ⟨by norm_num, by norm_num⟩)
    rw [heq] at h0
    exact h0

/-- C1 amended: for every tuning table whose values lie within 0 .. 1140
cents and whose entries before the probed entry are at least 60 cents away
from it (both conditions hold for chromatic temperament tables, and the
counterexample shows the claim fails without them), every entry (key, value)
and every octave shift i in the matcher window -3 .. 5: feeding the
fundamental f = a1 * 2 ^ ((value - table-A + i * 1200) / 1200) into
Tuner.find returns exactly that key with a cents offset of absolute value
less than 1 (here exactly 0). -/
theorem find_roundtrip_amended (table : Table) (pre post : List (String × ℚ))
    (key : String) (value vA : ℚ) (i : ℤ) (a1 : ℝ)
    (htab : table = pre ++ (key, value) :: post)
    (hA : getA table = some vA)
    (hrange : ∀ p ∈ table, 0 ≤ p.2 ∧ p.2 ≤ 1140)
    (hpre : ∀ p ∈ pre, 60 ≤ |p.2 - value|)
    (hlo : -3 ≤ i) (hhi : i ≤ 5) (ha1 : 0 < a1) :
    ∃ d : ℝ,
      find (a1 * (2 : ℝ) ^ (((value : ℝ) - (vA : ℝ) + 1200 * (i : ℝ)) / 1200))
          a1 table = .ok (some key, some d) ∧ |d| < 1 := by
  subst htab
  have hkv : (key, value) ∈ pre ++ (key, value) :: post :=
    List.mem_append.mpr (Or.inr (List.mem_cons_self _ _))
  have hv := hrange (key, value) hkv
  have hv0 : (0 : ℝ) ≤ (value : ℝ) := by exact_mod_cast hv.1
  have hv1 : (value : ℝ) ≤ 1140 := by exact_mod_cast hv.2
  refine ⟨((value : ℝ) - (vA : ℝ) + 1200 * (i : ℝ) - 1200 * (i : ℝ))
    + (vA : ℝ) - (value : ℝ), ?_, ?_⟩
  · unfold find
    rw [cents_of_rpow a1 ha1 _]
    apply findOuter_hit _ _ key _ i octaves ?_ ?_ ?_
    · simp only [octaves]
      interval_cases i <;> decide
    · intro i2 h2 hne
      apply findInner_miss _ _ vA hA
      intro p hp
      have hp' := hrange p hp
      have hp0 : (0 : ℝ) ≤ (p.2 : ℝ) := by exact_mod_cast hp'.1
      have hp1 : (p.2 : ℝ) ≤ 1140 := by exact_mod_cast hp'.2
      rintro ⟨hb1, hb2⟩
      rcases hne.lt_or_lt with hlt | hlt
      · have hcast : (i2 : ℝ) + 1 ≤ (i : ℝ) := by
          exact_mod_cast Int.add_one_le_iff.mpr hlt
        linarith
      · have hcast : (i : ℝ) + 1 ≤ (i2 : ℝ) := by
          exact_mod_cast Int.add_one_le_iff.mpr hlt
        linarith
    · apply findInner_first _ _ vA hA pre post key value ?_ ?_
      · intro p hp
        have habs : (60 : ℝ) ≤ |(p.2 : ℝ) - (value : ℝ)| := by
          have := hpre p hp
          push_cast at this ⊢
          exact_mod_cast this
        rintro ⟨hb1, hb2⟩
        rcases le_abs.mp habs with h60 | h60 <;> linarith
      · exact ⟨by linarith, by linarith⟩
  · rw [abs_lt]
    constructor <;> linarith

/-- C1 witness: the amended statement at the equal-temperament table
fragment [("A", 0), ("A#", 100)], probing the entry ("A#", 100) at octave
shift 0 with a1 = 440. -/
theorem find_roundtrip_amended_witness :
    ([(("A" : String), (0 : ℚ)), ("A#", 100)] =
        [("A", (0 : ℚ))] ++ ("A#", (100 : ℚ)) :: []) ∧
    getA [("A", 0), ("A#", 100)] = some 0 ∧
    (∀ p ∈ [(("A" : String), (0 : ℚ)), ("A#", 100)], 0 ≤ p.2 ∧ p.2 ≤ 1140) ∧
    (∀ p ∈ [(("A" : String), (0 : ℚ))], 60 ≤ |p.2 - (100 : ℚ)|) ∧
    ((-3 : ℤ) ≤ 0 ∧ (0 : ℤ) ≤ 5 ∧ (0 : ℝ) < 440) ∧
    (∃ d : ℝ,
      find (440 * (2 : ℝ) ^ ((((100 : ℚ) : ℝ) - ((0 : ℚ) : ℝ)
          + 1200 * ((0 : ℤ) : ℝ)) / 1200)) 440 [("A", 0), ("A#", 100)] =
        .ok (some "A#", some d) ∧ |d| < 1) := by
  have h4 : ∀ p ∈ [(("A" : String), (0 : ℚ))], 60 ≤ |p.2 - (100 : ℚ)| := by
    intro p hp
    simp only [List.mem_singleton] at hp
    subst hp
    norm_num
  have h3 : ∀ p ∈ [(("A" : String), (0 : ℚ)), ("A#", 100)],
      0 ≤ p.2 ∧ p.2 ≤ 1140 := by
    intro p hp
    rcases (by simpa using hp : p = ("A", (0 : ℚ)) ∨ p = ("A#", (100 : ℚ)))
      with rfl | rfl <;> norm_num
  exact ⟨rfl, rfl, h3, h4, ⟨by norm_num, by norm_num, by norm_num⟩,
    find_roundtrip_amended [("A", 0), ("A#", 100)] [("A", 0)] [] "A#" 100 0 0
      440 rfl rfl h3 h4 (by norm_num) (by norm_num) (by norm_num)⟩

/-- C5: for every input spectrum, the list returned by Tuner.peak contains
at most NMAX peaks; the returned peak positions are sorted strictly
ascending (hence strictly ascending in frequency, the frequency axis being
strictly increasing); zero qualifying peaks yields the valid empty result;
and the kept pairs together with the dropped pairs are a permutation of all
qualifying (amplitude, position) pairs with every dropped amplitude at most
every kept amplitude — the NMAX highest by amplitude are kept. -/
theorem peak_nmax_sorted (spectrum : List ℝ) :
    (peak spectrum).1.length ≤ NMAX ∧
    (peak spectrum).1.Pairwise (· < ·) ∧
    (findPeaks spectrum = [] → peak spectrum = ([], [])) ∧
    (peakKept spectrum ++ peakDropped spectrum).Perm (peakPairs spectrum) ∧
    (∀ a ∈ peakKept spectrum, ∀ b ∈ peakDropped spectrum, b.1 ≤ a.1) := by
  have hlen : (peak spectrum).1.length ≤ NMAX := by
    unfold peak
    split
    · simp [NMAX]
    · simp only [List.length_map, peakResorted, List.length_mergeSort,
        peakKept, List.length_take]
      exact min_le_left _ _
  refine ⟨hlen, pairwise_of_len_le_one (le_trans hlen (by norm_num [NMAX])),
    ?_, ?_, ?_⟩
  · intro h
    unfold peak
    rw [if_pos h]
  · unfold peakKept peakDropped
    rw [List.take_append_drop]
    exact List.mergeSort_perm _ _
  · have hsorted : (peakSortedDesc spectrum).Pairwise
        (fun a b => descLe a b = true) := by
      unfold peakSortedDesc
      exact List.sorted_mergeSort
        (fun a b c h1 h2 => descLe_trans a b c h1 h2)
        (fun a b => descLe_total a b) _
    have hTD : ((peakSortedDesc spectrum).take NMAX ++
        (peakSortedDesc spectrum).drop NMAX).Pairwise
        (fun a b => descLe a b = true) := by
      rw [List.take_append_drop]
      exact hsorted
    have h3 := (List.pairwise_append.mp hTD).2.2
    intro a ha b hb
    have hd := h3 a ha b hb
    simp only [descLe, decide_eq_true_eq] at hd
    rcases hd with h | ⟨he, -⟩
    · exact le_of_lt h
    · exact le_of_eq he

/-- C5 witness: the empty spectrum has no qualifying peaks, and Tuner.peak
returns the valid fully empty result for it. -/
theorem peak_nmax_sorted_witness :
    findPeaks ([] : List ℝ) = [] ∧ peak ([] : List ℝ) = ([], []) := by
  have h : findPeaks ([] : List ℝ) = [] := rfl
  exact ⟨h, (peak_nmax_sorted []).2.2.1 h⟩

/-- C10: starting from the initial state (record_seconds = 2.0, fmax = 2000),
after every finite sequence of hotkey events processed by Tuner.on_press the
invariant holds that record_seconds is nonnegative and 500 <= fmax <= 10000:
the j handler clamps record_seconds at 0 from below, and the n and m
handlers clamp fmax at 500 from below and 10000 from above. -/
theorem on_press_invariant (keys : List String) :
    0 ≤ (keys.foldl on_press initState).record_seconds ∧
    500 ≤ (keys.foldl on_press initState).fmax ∧
    (keys.foldl on_press initState).fmax ≤ 10000 :=
  onPress_inv_fold keys initState (by norm_num [initState])
    (by norm_num [initState]) (by norm_num [initState])

/-- C6: a raw peak whose symmetric fit window (channel index plus or minus
FIT_WINDOW) would run past either end of the spectrum index range is
discarded by ThreadedOpt.fitting and contributes no refined result; hence
every result collected by the refiner round comes from a peak whose fit
window lies inside the spectrum index bounds. -/
theorem fitting_window_guard (freq : List ℝ)
    (solver : ℕ → ℝ → Option (ℝ × ℝ × ℝ)) (initial : List (ℕ × ℝ)) :
    (∀ p ∈ initial, ((p.1 : ℤ) - parameters.FIT_WINDOW < 0 ∨
        (p.1 : ℤ) + parameters.FIT_WINDOW > (freq.length : ℤ) - 1) →
      ThreadedOpt.fitting freq (solver p.1 p.2) p.1 = none) ∧
    (∀ r ∈ ThreadedOpt.runOpt freq solver initial, ∃ p, p ∈ initial ∧
      ¬((p.1 : ℤ) - parameters.FIT_WINDOW < 0 ∨
        (p.1 : ℤ) + parameters.FIT_WINDOW > (freq.length : ℤ) - 1) ∧
      some r = (ThreadedOpt.fitting freq (solver p.1 p.2) p.1).map
        (fun g => (g.1, g.2.1))) := by
  constructor
  · intro p _ hbad
    unfold ThreadedOpt.fitting
    rw [if_pos hbad]
  · intro r hr
    obtain ⟨p, hp, hsome⟩ := List.mem_filterMap.mp hr
    refine ⟨p, hp, ?_, hsome.symm⟩
    intro hbad
    rw [show ThreadedOpt.fitting freq (solver p.1 p.2) p.1 = none from
      by unfold ThreadedOpt.fitting; rw [if_pos hbad]] at hsome
    exact Option.noConfusion hsome

/-- C6 witness: a concrete refiner round on an 11-channel spectrum with the
single in-range peak at channel 5. -/
theorem fitting_window_guard_witness :
    ((5, (1 : ℝ)) ∈ [((5 : ℕ), (1 : ℝ))]) ∧
    ((6, (7 : ℝ)) ∈ ThreadedOpt.runOpt (List.replicate 11 (0 : ℝ))
      (fun _ _ => some (6, 7, 2)) [(5, 1)]) ∧
    (∃ p, p ∈ [((5 : ℕ), (1 : ℝ))] ∧
      ¬((p.1 : ℤ) - parameters.FIT_WINDOW < 0 ∨
        (p.1 : ℤ) + parameters.FIT_WINDOW >
          ((List.replicate 11 (0 : ℝ)).length : ℤ) - 1) ∧
      some ((6 : ℝ), (7 : ℝ)) =
        (ThreadedOpt.fitting (List.replicate 11 (0 : ℝ))
          ((fun (_ : ℕ) (_ : ℝ) => some ((6 : ℝ), (7 : ℝ), (2 : ℝ))) p.1 p.2)
          p.1).map (fun g => (g.1, g.2.1))) := by
  have hmem : ((6 : ℝ), (7 : ℝ)) ∈ ThreadedOpt.runOpt
      (List.replicate 11 (0 : ℝ)) (fun _ _ => some (6, 7, 2)) [(5, 1)] := by
    simp [ThreadedOpt.runOpt, ThreadedOpt.fitting, parameters.FIT_WINDOW]
  exact ⟨List.mem_singleton.mpr rfl, hmem,
    (fitting_window_guard (List.replicate 11 (0 : ℝ))
      (fun _ _ => some (6, 7, 2)) [(5, 1)]).2 (6, 7) hmem⟩

/-- C7: a peak whose Gaussian fit fails to converge (solver outcome none) or
whose fit window exceeds the spectrum bounds contributes no result to the
collector queue, and the round returns the results of the remaining peaks
unaffected. -/
theorem fitting_failure_dropped (freq : List ℝ)
    (solver : ℕ → ℝ → Option (ℝ × ℝ × ℝ)) (pre post : List (ℕ × ℝ))
    (p : ℕ × ℝ)
    (h : solver p.1 p.2 = none ∨ (p.1 : ℤ) - parameters.FIT_WINDOW < 0 ∨
      (p.1 : ℤ) + parameters.FIT_WINDOW > (freq.length : ℤ) - 1) :
    ThreadedOpt.runOpt freq solver (pre ++ p :: post) =
      ThreadedOpt.runOpt freq solver (pre ++ post) := by
  have hf : ThreadedOpt.fitting freq (solver p.1 p.2) p.1 = none := by
    unfold ThreadedOpt.fitting
    rcases h with h | h
    · split_ifs <;> simp [h]
    · rw [if_pos h]
  unfold ThreadedOpt.runOpt
  simp [List.filterMap_append, List.filterMap_cons, hf]

/-- C7 witness: the middle peak of three fails to converge; the round result
is the same as without it. -/
theorem fitting_failure_dropped_witness :
    ((fun (x : ℕ) (_ : ℝ) =>
        if x = 5 then none else some ((1 : ℝ), (2 : ℝ), (3 : ℝ))) 5 (1 : ℝ)
          = none ∨
      ((5 : ℕ) : ℤ) - parameters.FIT_WINDOW < 0 ∨
      ((5 : ℕ) : ℤ) + parameters.FIT_WINDOW >
        ((List.replicate 11 (0 : ℝ)).length : ℤ) - 1) ∧
    ThreadedOpt.runOpt (List.replicate 11 (0 : ℝ))
        (fun x _ => if x = 5 then none else some (1, 2, 3))
        ([(6, 2)] ++ (5, 1) :: [(7, 3)]) =
      ThreadedOpt.runOpt (List.replicate 11 (0 : ℝ))
        (fun x _ => if x = 5 then none else some (1, 2, 3))
        ([(6, 2)] ++ [(7, 3)]) := by
  have h : (fun (x : ℕ) (_ : ℝ) =>
      if x = 5 then none else some ((1 : ℝ), (2 : ℝ), (3 : ℝ))) 5 (1 : ℝ)
        = none ∨
      ((5 : ℕ) : ℤ) - parameters.FIT_WINDOW < 0 ∨
      ((5 : ℕ) : ℤ) + parameters.FIT_WINDOW >
        ((List.replicate 11 (0 : ℝ)).length : ℤ) - 1 := Or.inl (by simp)
  exact ⟨h, fitting_failure_dropped (List.replicate 11 (0 : ℝ))
    (fun x _ => if x = 5 then none else some (1, 2, 3))
    [(6, 2)] [(7, 3)] (5, 1) h⟩

/-- C3 counterexample: the series built by Tuner.harmonics has exactly 8
entries (the loop runs for n in range(1, 9)), so it has no entry at
position NPARTIAL = 11; the claim that the formula holds at every position
up to the configured NPARTIAL is false. -/
theorem harmonics_series_counterexample :
    (harmonics_f_n 1 0).length = 8 ∧
    (harmonics_f_n 1 0).get? (parameters.NPARTIAL - 1) = none ∧
    8 < parameters.NPARTIAL := by
  have hlen : (harmonics_f_n 1 0).length = 8 := by
    rw [harmonics_f_n]
    simp only [List.length_map, List.length_range']
  refine ⟨hlen, ?_, by norm_num [parameters.NPARTIAL]⟩
  rw [List.get?_eq_none, hlen]
  norm_num [parameters.NPARTIAL]

/-- C3 amended: for every winning fit result (f1, B) and nonempty peak list,
Tuner.harmonics returns, purely and with no solver involved, the series
whose entry at position n is f1 * n * sqrt(1 + B * n^2) — for every n from 1
up to 8 (the loop bound range(1, 9) of the source), not up to the configured
NPARTIAL = 11. -/
theorem harmonics_series_amended (f1 B : ℝ) (peaks : List ℝ)
    (hp : peaks ≠ []) (n : ℕ) (h1 : 1 ≤ n) (h8 : n ≤ 8) :
    harmonics (f1, B) peaks = .ok (harmonics_f_n f1 B) ∧
    (harmonics_f_n f1 B).get? (n - 1) =
      some (f1 * (n : ℝ) * Real.sqrt (1 + B * (n : ℝ) ^ 2)) := by
  constructor
  · simp [harmonics, fundamentalSearch, List.isEmpty_iff, hp]
  · have hr : List.range' 1 8 = [1, 2, 3, 4, 5, 6, 7, 8] := rfl
    unfold harmonics_f_n
    rw [hr]
    interval_cases n <;> norm_num [List.get?]

/-- C3 witness: the amended statement at f1 = 440, B = 0, n = 3. -/
theorem harmonics_series_amended_witness :
    ([(440 : ℝ)] ≠ []) ∧ (1 ≤ 3 ∧ 3 ≤ 8) ∧
    (harmonics ((440 : ℝ), (0 : ℝ)) [440] = .ok (harmonics_f_n 440 0) ∧
      (harmonics_f_n 440 0).get? (3 - 1) =
        some (440 * ((3 : ℕ) : ℝ) * Real.sqrt (1 + 0 * ((3 : ℕ) : ℝ) ^ 2))) :=
  ⟨by simp, ⟨by norm_num, by norm_num⟩,
    harmonics_series_amended 440 0 [440] (by simp) 3 (by norm_num)
      (by norm_num)⟩

end Tuning
